import Mathlib

/-!
Verification development for the youdao-dic vocabulary toolkit.

The toolkit has three batch utilities:
* `extract_unique_words.py` — deduplicates word entries across newline-delimited
  JSON files by lowercased `headWord`, sorts by original `wordRank`, renumbers.
* `split_words.py` — splits the consolidated array into 1000-entry partitions,
  renumbering `wordRank` within each partition.
* `download_audio.py` — downloads two audio variants per non-phrase word and
  tracks progress in a JSON checkpoint.

We model the JSON word objects shallowly: a `RawEntry` carries the `headWord`
field (absent modelled as `none`), the `wordRank` field, and an opaque `payload`
standing for all other JSON fields that the toolkit never interprets.
-/

set_option maxHeartbeats 1000000
set_option maxRecDepth 4096

namespace YoudaoDic

/-- A JSON word object as the toolkit sees it: the `headWord` string (missing
key modelled as `none`), the optional numeric `wordRank`, and an opaque
`payload` standing for every other field of the object. -/
structure RawEntry where
  headWord : Option String
  wordRank : Option Int
  payload : Nat
deriving DecidableEq, Repr

/-- Python `str.lower()`, modelled characterwise on the char list (ASCII). -/
def lowerString (s : String) : String := String.mk (s.data.map Char.toLower)

/-- `word_obj.get('headWord', '').lower()` — the dedup key of an entry. -/
def lowerKey (e : RawEntry) : String := lowerString (e.headWord.getD "")

/-- An entry with its `wordRank` field erased; two entries agree on all fields
the tooling does not reassign iff their `eraseRank` images are equal. -/
def eraseRank (e : RawEntry) : RawEntry := { e with wordRank := none }

/-! ## Deduplicator (`extract_unique_words.py`)

An input file is read as lines; each line either parses to a JSON dict
(`some entry`) or is malformed / not a dict (`none`, skipped). -/

/-- One step of the dedup loop (lines 49–58 of `extract_unique_words.py`):
skip non-dict lines, compute the lowercased key, drop entries with an empty
key, and keep only the first entry seen for each key (insertion order). -/
def dedupInsert (acc : List RawEntry) (line : Option RawEntry) : List RawEntry :=
  match line with
  | none => acc
  | some e =>
    let k := lowerKey e
    if k = "" then acc
    else if acc.any (fun x => lowerKey x = k) then acc
    else acc ++ [e]

/-- The dedup pass over all files in file order, then line order: the
insertion-ordered list of retained first occurrences
(`list(unique_words.values())`). -/
def collectUnique (files : List (List (Option RawEntry))) : List RawEntry :=
  files.flatten.foldl dedupInsert []

/-- The sort order used by `unique_words_list.sort(key=lambda x:
x.get('wordRank', float('inf')))`: compare ranks, a missing rank acting as
plus infinity. -/
def RankLe (a b : RawEntry) : Prop :=
  match a.wordRank, b.wordRank with
  | none, none => True
  | none, some _ => False
  | some _, none => True
  | some x, some y => x ≤ y

instance : DecidableRel RankLe := fun a b => by
  unfold RankLe
  cases a.wordRank <;> cases b.wordRank <;> infer_instance

instance : IsTotal RawEntry RankLe where
  total a b := by
    unfold RankLe
    cases a.wordRank <;> cases b.wordRank
    all_goals simp
    all_goals omega

instance : IsTrans RawEntry RankLe where
  trans a b c := by
    unfold RankLe
    cases a.wordRank <;> cases b.wordRank <;> cases c.wordRank
    all_goals simp
    all_goals omega

/-- `for i, word_obj in enumerate(unique_words_list, 1): word_obj['wordRank'] = i`
(also used by the splitter on each chunk): reassign ranks `n, n+1, ...`. -/
def renumber (n : Nat) : List RawEntry → List RawEntry
  | [] => []
  | e :: l => { e with wordRank := some (n : Int) } :: renumber (n + 1) l

/-- The deduplicator's output list: retained first occurrences, sorted by
original rank (stable, missing ranks last), ranks reassigned from 1. -/
def extract_unique_words (files : List (List (Option RawEntry))) : List RawEntry :=
  renumber 1 (List.insertionSort RankLe (collectUnique files))

/-- Front-recursive form of the dedup fold, used to reason about
`collectUnique`: `seen` is the list of keys already retained. -/
def ddAux (seen : List String) : List (Option RawEntry) → List RawEntry
  | [] => []
  | none :: l => ddAux seen l
  | some e :: l =>
    if lowerKey e = "" ∨ lowerKey e ∈ seen then ddAux seen l
    else e :: ddAux (lowerKey e :: seen) l

/-! ## Splitter (`split_words.py`) -/

/-- Fixed batch size (`words_per_file = 1000`). -/
def words_per_file : Nat := 1000

/-- Number of partition files: `math.ceil(total_words / words_per_file)`. -/
def totalFiles (n : Nat) : Nat := (n + (words_per_file - 1)) / words_per_file

/-- Zero-pad a numeral to at least three digits, as Python's `{:03d}`. -/
def pad3 (n : Nat) : String :=
  let s := toString n
  String.mk (List.replicate (3 - s.length) '0') ++ s

/-- Partition filename `words_{file_index + 1:03d}.json`. -/
def partitionName (idx1 : Nat) : String := "words_" ++ pad3 idx1 ++ ".json"

/-- The chunk written to file number `k` (0-based): slice
`words_data[k*1000 : (k+1)*1000]` with ranks renumbered from 1. -/
def splitChunk (words : List RawEntry) (k : Nat) : List RawEntry :=
  renumber 1 ((words.drop (k * words_per_file)).take words_per_file)

/-- The splitter's output: the list of `(filename, contents)` pairs written,
in file-index order (which is filename order, `words_001.json` upward). -/
def split_unique_words (words : List RawEntry) :
    List (String × List RawEntry) :=
  (List.range (totalFiles words.length)).map
    (fun k => (partitionName (k + 1), splitChunk words k))

/-! ## Audio fetcher / checkpoint tracker (`download_audio.py`)

The external world (filesystem pre-state, HTTP service, wall clock) is an
explicit environment; files written during a run are threaded through a
`DiskTrace`, so the "already exists" check sees earlier writes of the run. -/

/-- Per-partition checkpoint record status. -/
inductive Status where
  | pending
  | processing
  | completed
  | failed
deriving DecidableEq, Repr

/-- The `statistics` object of the checkpoint. -/
structure Statistics where
  total_files : Nat
  completed_files : Nat
  total_words : Nat
  downloaded_audios : Nat
  failed_downloads : Nat
  skipped_phrases : Nat
deriving DecidableEq, Repr

/-- The zeroed statistics block (`create_initial_todos`, and the defaults
backfilled by `_ensure_statistics_fields`). -/
def initialStatistics : Statistics := ⟨0, 0, 0, 0, 0, 0⟩

/-- One `FileStatus` record of the checkpoint. -/
structure FileStatusRec where
  filename : String
  word_count : Nat
  status : Status
  completed_words : Nat
  failed_words : Nat
  last_updated : Option String
deriving DecidableEq, Repr

/-- The whole checkpoint (`download_progress.json`). -/
structure Todos where
  files : List FileStatusRec
  completed_files : List String
  statistics : Statistics
deriving DecidableEq, Repr

/-- Outcome of one HTTP GET: a raised `RequestException` (including a bad
status via `raise_for_status`), or a body with its content type and length. -/
inductive HttpResult where
  | err (msg : String)
  | ok (contentType : String) (contentLength : Nat)
deriving DecidableEq, Repr

/-- The downloader's environment: which audio files already exist on disk
before the run, the HTTP service's response per (word, type), and the clock. -/
structure Env where
  fileExists : String → Bool
  http : String → Nat → HttpResult
  now : String

/-- `is_phrase`: the word contains a space or a hyphen. -/
def is_phrase (word : String) : Bool :=
  word.data.contains ' ' || word.data.contains '-'

/-- `"uk" if audio_type == 1 else "us"`. -/
def typeName (t : Nat) : String := if t = 1 then "uk" else "us"

/-- Audio filename `{word}_{uk|us}.mp3`. -/
def audioFilename (word : String) (t : Nat) : String :=
  word ++ "_" ++ typeName t ++ ".mp3"

/-- The response-content heuristic: content type starts with `audio`, or the
body is longer than 1000 bytes. -/
def validAudio (contentType : String) (contentLength : Nat) : Bool :=
  List.isPrefixOf "audio".data contentType.data || decide (contentLength > 1000)

/-- Side effects of a run so far: audio files written and network requests
issued (a request is recorded as the (word, type) pair fed to the URL
template). -/
structure DiskTrace where
  written : List String
  requests : List (String × Nat)
deriving DecidableEq, Repr

/-- Result of `download_audio`: the returned (success, message) pair and the
updated side-effect trace. -/
structure DownloadResult where
  success : Bool
  message : String
  disk : DiskTrace
deriving DecidableEq, Repr

/-- `AudioDownloader.download_audio` (lines 118–153): phrase guard, the
already-exists short-circuit, the HTTP GET, and the content heuristic
deciding whether the body is persisted. -/
def download_audio (env : Env) (disk : DiskTrace) (word : String) (t : Nat) :
    DownloadResult :=
  if is_phrase word then ⟨false, "词组已跳过", disk⟩
  else
    let fn := audioFilename word t
    if env.fileExists fn || disk.written.contains fn then ⟨true, "已存在", disk⟩
    else
      let disk1 : DiskTrace := { disk with requests := disk.requests ++ [(word, t)] }
      match env.http word t with
      | HttpResult.err m => ⟨false, "网络错误: " ++ m, disk1⟩
      | HttpResult.ok ct n =>
        if validAudio ct n then
          ⟨true, "下载成功", { disk1 with written := disk1.written ++ [fn] }⟩
        else ⟨false, "无效音频", disk1⟩

/-- The whitespace characters removed by Python's default `str.strip`. -/
def pyStripChar (c : Char) : Bool :=
  c = ' ' || c = '\t' || c = '\n' || c = '\r' || c = '\x0b' || c = '\x0c'

/-- Python `str.strip()`: drop leading and trailing whitespace. -/
def pyStrip (s : String) : String :=
  String.mk (((s.data.dropWhile pyStripChar).reverse.dropWhile
    pyStripChar).reverse)

/-- `word_obj.get('headWord', '').strip()`. -/
def strippedWord (e : RawEntry) : String := pyStrip (e.headWord.getD "")

/-- In-memory state of the `process_file` word loop: the local counters, the
shared statistics, this file's checkpoint record, the side-effect trace, the
sequence of mid-loop checkpoint writes (record and statistics persisted), and
the 1-based word indices at which those writes happened. -/
structure LoopSt where
  success_count : Nat
  fail_count : Nat
  skipped_count : Nat
  stats : Statistics
  frec : FileStatusRec
  disk : DiskTrace
  saves : List (FileStatusRec × Statistics)
  saveIdx : List Nat
deriving Repr

/-- The body of the `process_file` loop (lines 197–233) for the word at
1-based index `i`: skip empty stripped words; count and skip phrases; else
download both variants, update counters, and checkpoint when `i % 10 == 0`
(note the phrase/empty branches `continue` past the checkpoint test). -/
def wordStep (env : Env) (st : LoopSt) (i : Nat) (e : RawEntry) : LoopSt :=
  let word := strippedWord e
  if word = "" then st
  else if is_phrase word then
    { st with skipped_count := st.skipped_count + 1,
              stats := { st.stats with
                skipped_phrases := st.stats.skipped_phrases + 1 } }
  else
    let r1 := download_audio env st.disk word 1
    let r2 := download_audio env r1.disk word 2
    let st1 := { st with disk := r2.disk }
    let st2 :=
      if r1.success && r2.success then
        { st1 with success_count := st1.success_count + 1,
                   stats := { st1.stats with
                     downloaded_audios := st1.stats.downloaded_audios + 2 } }
      else
        { st1 with fail_count := st1.fail_count + 1,
                   stats := { st1.stats with
                     failed_downloads := st1.stats.failed_downloads + 1 } }
    if i % 10 = 0 then
      let saved := { st2.frec with completed_words := st2.success_count,
                                   failed_words := st2.fail_count }
      { st2 with frec := saved,
                 saves := st2.saves ++ [(saved, st2.stats)],
                 saveIdx := st2.saveIdx ++ [i] }
    else st2

/-- The `for i, word_obj in enumerate(words_data, 1)` loop, starting at
index `i`. -/
def processFrom (env : Env) (st : LoopSt) (i : Nat) : List RawEntry → LoopSt
  | [] => st
  | e :: ws => processFrom env (wordStep env st i e) (i + 1) ws

/-- Replace the first record with the given filename (the Python code mutates
the first matching object found by its linear scan). -/
def replaceFirst (files : List FileStatusRec) (name : String)
    (r : FileStatusRec) : List FileStatusRec :=
  match files with
  | [] => []
  | f :: fs => if f.filename = name then r :: fs else f :: replaceFirst fs name r

/-- Outcome of reading a partition file from disk at the top of
`process_file`: an exception, or the parsed JSON array of word objects. -/
inductive ReadResult where
  | err
  | ok (words : List RawEntry)
deriving DecidableEq, Repr

/-- Result of `process_file`: the returned Bool, the checkpoint after the run,
the side-effect trace, every persisted (record, statistics) snapshot of this
file's record in order, the loop-save indices, and the loop counters. -/
structure ProcResult where
  ok : Bool
  todos : Todos
  disk : DiskTrace
  saves : List (FileStatusRec × Statistics)
  saveIdx : List Nat
  success_count : Nat
  fail_count : Nat
  skipped_count : Nat
deriving Repr

/-- `AudioDownloader.process_file` (lines 155–253). `rr` is the outcome of
reading the partition file from disk. -/
def process_file (env : Env) (todos : Todos) (filename : String)
    (rr : ReadResult) : ProcResult :=
  match todos.files.find? (fun f => f.filename = filename) with
  | none => ⟨false, todos, ⟨[], []⟩, [], [], 0, 0, 0⟩
  | some fi =>
    if fi.status = Status.completed then ⟨true, todos, ⟨[], []⟩, [], [], 0, 0, 0⟩
    else
      match rr with
      | ReadResult.err =>
        let fi1 := { fi with status := Status.failed }
        let todos1 := { todos with files := replaceFirst todos.files filename fi1 }
        ⟨false, todos1, ⟨[], []⟩, [(fi1, todos1.statistics)], [], 0, 0, 0⟩
      | ReadResult.ok words =>
        let fi1 := { fi with status := Status.processing,
                             last_updated := some env.now }
        let st0 : LoopSt := ⟨0, 0, 0, todos.statistics, fi1, ⟨[], []⟩, [], []⟩
        let st := processFrom env st0 1 words
        let fi2 := { st.frec with completed_words := st.success_count,
                                  failed_words := st.fail_count,
                                  status := Status.completed,
                                  last_updated := some env.now }
        let known := todos.completed_files.contains filename
        let todos1 : Todos :=
          { files := replaceFirst todos.files filename fi2
            completed_files :=
              if known then todos.completed_files
              else todos.completed_files ++ [filename]
            statistics :=
              if known then st.stats
              else { st.stats with completed_files := st.stats.completed_files + 1 } }
        ⟨true, todos1, st.disk, st.saves ++ [(fi2, todos1.statistics)],
          st.saveIdx, st.success_count, st.fail_count, st.skipped_count⟩

/-- A fresh `pending` record for a partition file of `wc` words. -/
def initialFileRec (filename : String) (wc : Nat) : FileStatusRec :=
  ⟨filename, wc, Status.pending, 0, 0, none⟩

/-- Directory-listing filter `f.endswith('.json')`. -/
def jsonName (s : String) : Bool := List.isSuffixOf ".json".data s.data

/-- One iteration of the `rescan_files` loop: skip filenames already in the
checkpoint (against the membership list computed before the loop) and files
that fail to read; append a fresh pending record otherwise and bump the
aggregate totals. -/
def rescanStep (existing : List String)
    (readFile : String → Option (List RawEntry)) (todos : Todos)
    (filename : String) : Todos :=
  if existing.contains filename then todos
  else
    match readFile filename with
    | none => todos
    | some words =>
      { todos with
        files := todos.files ++ [initialFileRec filename words.length]
        statistics := { todos.statistics with
          total_words := todos.statistics.total_words + words.length
          total_files := todos.statistics.total_files + 1 } }

/-- `AudioDownloader.rescan_files` (lines 361–396): the sorted `.json`
directory listing is folded over `rescanStep`, with the existing-filenames
list fixed before the loop. -/
def rescan_files (todos : Todos) (listing : List String)
    (readFile : String → Option (List RawEntry)) : Todos :=
  let split_files :=
    List.insertionSort (fun a b : String => a ≤ b) (listing.filter jsonName)
  let existing := todos.files.map (fun f => f.filename)
  split_files.foldl (rescanStep existing readFile) todos

/-- One iteration of the `create_initial_todos` scan loop: skip unreadable
files, else append a fresh pending record and add to `total_words`. -/
def initStep (readFile : String → Option (List RawEntry)) (t : Todos)
    (filename : String) : Todos :=
  match readFile filename with
  | none => t
  | some words =>
    { t with
      files := t.files ++ [initialFileRec filename words.length]
      statistics := { t.statistics with
        total_words := t.statistics.total_words + words.length } }

/-- `AudioDownloader.create_initial_todos` (lines 71–111): scan the sorted
`.json` listing, one pending record per readable file, `total_words` summed,
`total_files` set at the end; all other statistics zero. -/
def create_initial_todos (listing : List String)
    (readFile : String → Option (List RawEntry)) : Todos :=
  let split_files :=
    List.insertionSort (fun a b : String => a ≤ b) (listing.filter jsonName)
  let t := split_files.foldl (initStep readFile) ⟨[], [], initialStatistics⟩
  { t with statistics := { t.statistics with total_files := t.files.length } }

/-! ## Derived observations used to state theorems -/

/-- A word that the `process_file` loop actually processes (downloads for):
its stripped `headWord` is non-empty and not a phrase. -/
def processedWord (e : RawEntry) : Bool :=
  (strippedWord e != "") && !(is_phrase (strippedWord e))

/-- The 1-based indices at which the `process_file` loop reaches its
`i % 10 == 0` checkpoint test: the index must be a multiple of 10 AND the word
at that index must have been processed (the empty-word and phrase branches
`continue` past the test). -/
def loopSaveIndices (i : Nat) : List RawEntry → List Nat
  | [] => []
  | e :: ws =>
    (if i % 10 = 0 ∧ processedWord e = true then [i] else []) ++
      loopSaveIndices (i + 1) ws

/-- Invariant of the word-loop state: every checkpoint snapshot taken so far
carries counters bounded by the current counters and the current record
status, and the persisted counter sequences are non-decreasing. -/
def SavesInv (st : LoopSt) : Prop :=
  (∀ p ∈ st.saves, p.1.completed_words ≤ st.success_count
    ∧ p.1.failed_words ≤ st.fail_count
    ∧ p.1.status = st.frec.status)
  ∧ (st.saves.map (fun p => p.1.completed_words)).Pairwise (· ≤ ·)
  ∧ (st.saves.map (fun p => p.1.failed_words)).Pairwise (· ≤ ·)

/-- The records `rescan_files` appends: one fresh pending record per readable
listed file whose name is not already tracked. -/
def newRecords (existing : List String)
    (readFile : String → Option (List RawEntry)) (l : List String) :
    List FileStatusRec :=
  l.filterMap (fun f =>
    if existing.contains f then none
    else (readFile f).map (fun ws => initialFileRec f ws.length))

/-! ## Concrete inputs used by witnesses and counterexamples -/

/-- Demo reader: only `words_002.json` is readable, with two entries. -/
def demoRead : String → Option (List RawEntry) :=
  fun f => if f = "words_002.json"
    then some [{ headWord := some "solo", wordRank := some 1, payload := 0 },
               { headWord := some "duo", wordRank := some 2, payload := 1 }]
    else none

/-- An input on which the splitter's per-chunk renumbering changes a field:
one entry whose `wordRank` is 5. (The same happens to every entry past
position 1000 of a larger input: chunk 2 restarts at rank 1.) -/
def rank5Input : List RawEntry :=
  [{ headWord := some "w", wordRank := some 5, payload := 0 }]

/-- Three-entry demo input (already in dedup shape: ranks `1..3`). -/
def demo3 : List RawEntry :=
  [{ headWord := some "alpha", wordRank := some 1, payload := 1 },
   { headWord := some "beta", wordRank := some 2, payload := 2 },
   { headWord := some "gamma", wordRank := some 3, payload := 3 }]

/-- The scenario of the specification: `{aardvark, rank 5}` in one file,
`{Aardvark, rank 1}` and `{banana, rank 2}` in another. -/
def demoFiles : List (List (Option RawEntry)) :=
  [[some { headWord := some "aardvark", wordRank := some 5, payload := 10 }],
   [some { headWord := some "Aardvark", wordRank := some 1, payload := 20 },
    some { headWord := some "banana", wordRank := some 2, payload := 30 }]]

/-- Demo environment: nothing on disk, every request answers valid audio. -/
def envOkAll : Env :=
  ⟨fun _ => false, fun _ _ => HttpResult.ok "audio" 5000, "2024-01-01 00:00:00"⟩

/-- Demo environment: nothing on disk, type-1 requests succeed, type-2
requests raise a network error. -/
def envFail2 : Env :=
  ⟨fun _ => false,
   fun _ t => if t = 2 then HttpResult.err "boom" else HttpResult.ok "audio" 5000,
   "2024-01-01 00:00:00"⟩

/-- Demo loop state: counters zeroed, statistics zeroed, one processing
record, empty traces. -/
def demoSt : LoopSt :=
  ⟨0, 0, 0, initialStatistics,
   ⟨"words_001.json", 1, Status.processing, 0, 0, none⟩, ⟨[], []⟩, [], []⟩

/-- Demo checkpoint: a single pending one-word file, zeroed statistics. -/
def demoTodos : Todos :=
  ⟨[⟨"words_001.json", 1, Status.pending, 0, 0, none⟩], [], initialStatistics⟩

/-- Demo ten-word partition content: nine ordinary distinct words followed by
a phrase in position 10. -/
def tenWords : List RawEntry :=
  (List.range 9).map
    (fun (i : Nat) => { headWord := some ("w" ++ toString i),
                        wordRank := some ((i : Int) + 1), payload := i }) ++
  [{ headWord := some "a b", wordRank := some 10, payload := 9 }]

/-- Demo checkpoint for the ten-word file. -/
def demoTodos10 : Todos :=
  ⟨[⟨"words_001.json", 10, Status.pending, 0, 0, none⟩], [], initialStatistics⟩

/-- Demo environment: nothing on disk, type-1 requests raise a network error,
type-2 requests succeed. -/
def envFail1 : Env :=
  ⟨fun _ => false,
   fun _ t => if t = 1 then HttpResult.err "boom" else HttpResult.ok "audio" 5000,
   "2024-01-01 00:00:00"⟩

/-- A single ordinary word entry. -/
def eSolo : RawEntry := { headWord := some "solo", wordRank := some 1, payload := 0 }

/-! ## Basic lemmas about `renumber` and the chunk decomposition -/

theorem renumber_length (n : Nat) (l : List RawEntry) :
    (renumber n l).length = l.length := by
  induction l generalizing n with
  | nil => rfl
  | cons e l ih => simp [renumber, ih]

theorem renumber_map_eraseRank (n : Nat) (l : List RawEntry) :
    (renumber n l).map eraseRank = l.map eraseRank := by
  induction l generalizing n with
  | nil => rfl
  | cons e l ih => simp [renumber, ih, eraseRank]

theorem renumber_map_rank (n : Nat) (l : List RawEntry) :
    (renumber n l).map (fun e => e.wordRank) =
      (List.range l.length).map (fun i => some ((n + i : Nat) : Int)) := by
  induction l generalizing n with
  | nil => rfl
  | cons e l ih =>
    simp only [renumber, List.map_cons, ih, List.length_cons,
      List.range_succ_eq_map, List.map_map]
    congr 1
    apply List.map_congr_left
    intro i _
    simp only [Function.comp_apply]
    congr 1
    omega

theorem renumber_one_ranks (l : List RawEntry) :
    (renumber 1 l).map (fun e => e.wordRank) =
      (List.range l.length).map (fun (i : Nat) => some ((i : Int) + 1)) := by
  rw [renumber_map_rank]
  apply List.map_congr_left
  intro i _
  congr 1
  omega

theorem renumber_renumber (n : Nat) (l : List RawEntry) :
    renumber n (renumber n l) = renumber n l := by
  induction l generalizing n with
  | nil => rfl
  | cons e l ih => simp [renumber, ih]

/-- Concatenating the raw (un-renumbered) contiguous chunks in index order
reproduces the input list. -/
theorem chunks_flatten (n : Nat) : ∀ words : List RawEntry, words.length ≤ n →
    ((List.range (totalFiles words.length)).map
      (fun k => (words.drop (k * words_per_file)).take words_per_file)).flatten
      = words := by
  induction n with
  | zero =>
    intro words h
    have hw : words = [] := List.eq_nil_of_length_eq_zero (Nat.le_zero.mp h)
    subst hw
    rfl
  | succ n ih =>
    intro words h
    by_cases h0 : words.length = 0
    · have hw : words = [] := List.eq_nil_of_length_eq_zero h0
      subst hw
      rfl
    · have ht : totalFiles words.length =
          totalFiles (words.drop words_per_file).length + 1 := by
        simp only [totalFiles, words_per_file, List.length_drop]
        omega
      rw [ht, List.range_succ_eq_map, List.map_cons, List.flatten_cons,
        Nat.zero_mul, List.drop_zero, List.map_map]
      have hmap : ((List.range (totalFiles (words.drop words_per_file).length)).map
            ((fun k => (words.drop (k * words_per_file)).take words_per_file) ∘
              (· + 1))) =
          (List.range (totalFiles (words.drop words_per_file).length)).map
            (fun k =>
              ((words.drop words_per_file).drop (k * words_per_file)).take
                words_per_file) := by
        apply List.map_congr_left
        intro k _
        simp only [Function.comp_apply, List.drop_drop]
        congr 2
        ring
      rw [hmap, ih (words.drop words_per_file) (by simp [words_per_file]; omega),
        List.take_append_drop]

/-- The input length is at least the length of each split slice; the chunk at
index `k` of the split output. -/
theorem split_get (words : List RawEntry) (k : Nat)
    (h : k < (split_unique_words words).length) :
    (split_unique_words words).get ⟨k, h⟩ =
      (partitionName (k + 1), splitChunk words k) := by
  simp [split_unique_words]

theorem split_length (words : List RawEntry) :
    (split_unique_words words).length = totalFiles words.length := by
  simp [split_unique_words]

/-- The rank-erased concatenation of the written chunks is the rank-erased
input. -/
theorem split_flatten_eraseRank (words : List RawEntry) :
    (((split_unique_words words).map (fun p => p.2)).flatten).map eraseRank =
      words.map eraseRank := by
  have hlen : words.length = (words.map eraseRank).length := by simp
  calc (((split_unique_words words).map (fun p => p.2)).flatten).map eraseRank
      = ((List.range (totalFiles (words.map eraseRank).length)).map
          (fun k =>
            ((words.map eraseRank).drop (k * words_per_file)).take
              words_per_file)).flatten := by
        simp only [split_unique_words, List.map_map, List.map_flatten, ← hlen]
        congr 1
        apply List.map_congr_left
        intro k _
        simp [splitChunk, renumber_map_eraseRank, List.map_take, List.map_drop]
    _ = words.map eraseRank :=
        chunks_flatten (words.map eraseRank).length _ (Nat.le_refl _)

/-- Claim C3 (confirmed): the splitter produces exactly `ceil(N/1000)` files,
named `words_{k+1:03d}.json` in index order; chunk `k` is the contiguous slice
`words[1000k : 1000k+1000]` up to rank renumbering; every chunk has at most
1000 entries and every non-final chunk exactly 1000; each chunk's ranks are
exactly `1..len(chunk)`; and the chunk lengths sum to `N`. -/
theorem split_unique_words_shape (words : List RawEntry) :
    (split_unique_words words).length = (words.length + 999) / 1000
    ∧ (∀ k, ∀ h : k < (split_unique_words words).length,
        ((split_unique_words words).get ⟨k, h⟩).1 = partitionName (k + 1))
    ∧ (∀ k, ∀ h : k < (split_unique_words words).length,
        ((split_unique_words words).get ⟨k, h⟩).2.map eraseRank =
          ((words.drop (k * 1000)).take 1000).map eraseRank)
    ∧ (∀ k, ∀ h : k < (split_unique_words words).length,
        ((split_unique_words words).get ⟨k, h⟩).2.length ≤ 1000)
    ∧ (∀ k, ∀ h : k + 1 < (split_unique_words words).length,
        ((split_unique_words words).get ⟨k, Nat.lt_of_succ_lt h⟩).2.length = 1000)
    ∧ (∀ k, ∀ h : k < (split_unique_words words).length,
        ((split_unique_words words).get ⟨k, h⟩).2.map (fun e => e.wordRank) =
          (List.range ((split_unique_words words).get ⟨k, h⟩).2.length).map
            (fun (i : Nat) => some ((i : Int) + 1)))
    ∧ ((split_unique_words words).map (fun p => p.2.length)).sum = words.length := by
  refine ⟨?_, ?_, ?_, ?_, ?_, ?_, ?_⟩
  · rw [split_length]
    rfl
  · intro k h
    rw [split_get]
  · intro k h
    rw [split_get]
    simp [splitChunk, renumber_map_eraseRank, words_per_file]
  · intro k h
    rw [split_get]
    simp only [splitChunk, renumber_length, List.length_take, List.length_drop,
      words_per_file]
    omega
  · intro k h
    rw [split_get]
    rw [split_length] at h
    simp only [totalFiles, words_per_file] at h
    simp only [splitChunk, renumber_length, List.length_take, List.length_drop,
      words_per_file]
    omega
  · intro k h
    rw [split_get]
    simp only [splitChunk]
    rw [renumber_one_ranks, renumber_length]
  · have h1 := congrArg List.length (split_flatten_eraseRank words)
    simp only [List.length_map] at h1
    rw [List.length_flatten, List.map_map] at h1
    simpa [Function.comp] using h1

/-! ## C2: the split/concatenate round trip -/

theorem split_single (words : List RawEntry) (h0 : words.length ≠ 0)
    (h : words.length ≤ 1000) :
    split_unique_words words = [(partitionName 1, renumber 1 words)] := by
  have ht : totalFiles words.length = 1 := by
    simp only [totalFiles, words_per_file]
    omega
  have htake : words.take words_per_file = words :=
    List.take_of_length_le (by simpa [words_per_file] using h)
  simp [split_unique_words, ht, splitChunk, List.range_succ, htake]

/-- Counterexample to claim C2 as stated: the splitter renumbers `wordRank` inside each
chunk, so the concatenation of the partition files is not equal to the input
element for element including every field: the single entry with `wordRank` 5
is written back with `wordRank` 1. -/
theorem split_concat_ne_input :
    ((split_unique_words rank5Input).map (fun p => p.2)).flatten ≠ rank5Input := by
  decide

/-- Claim C2 (corrected): concatenating the partition files in filename order
reproduces the splitter's input element for element in every field except
`wordRank`, which is renumbered `1..len` within each chunk; in particular
`split(dedup(X))` concatenated equals `dedup(X)` exactly whenever `dedup(X)`
has at most 1000 entries (one partition), but not in general. -/
theorem split_concat_round_trip :
    (∀ words : List RawEntry,
      (((split_unique_words words).map (fun p => p.2)).flatten).map eraseRank =
        words.map eraseRank)
    ∧ (∀ files : List (List (Option RawEntry)),
        (extract_unique_words files).length ≤ 1000 →
        ((split_unique_words (extract_unique_words files)).map
            (fun p => p.2)).flatten = extract_unique_words files) := by
  refine ⟨split_flatten_eraseRank, ?_⟩
  intro files h
  by_cases h0 : (extract_unique_words files).length = 0
  · have he : extract_unique_words files = [] :=
      List.eq_nil_of_length_eq_zero h0
    rw [he]
    rfl
  · rw [split_single _ h0 h]
    simp only [List.map_cons, List.map_nil, List.flatten_cons, List.flatten_nil,
      List.append_nil]
    unfold extract_unique_words
    exact renumber_renumber 1 _

/-- Witness for the C3 theorem at the three-entry demo input. -/
theorem split_unique_words_shape_witness :
    ((split_unique_words demo3).get ⟨0, by decide⟩).1 = "words_001.json"
    ∧ ((split_unique_words demo3).map (fun p => p.2.length)).sum = 3 :=
  ⟨(split_unique_words_shape demo3).2.1 0 (by decide),
   (split_unique_words_shape demo3).2.2.2.2.2.2⟩

/-- Witness for the C2 theorem at the specification's demo scenario. -/
theorem split_concat_round_trip_witness :
    (extract_unique_words demoFiles).length ≤ 1000
    ∧ ((split_unique_words (extract_unique_words demoFiles)).map
          (fun p => p.2)).flatten = extract_unique_words demoFiles :=
  ⟨by decide, split_concat_round_trip.2 demoFiles (by decide)⟩

/-! ## Lemmas about `download_audio` and the word loop -/

theorem download_audio_phrase (env : Env) (d : DiskTrace) (w : String) (t : Nat)
    (h : is_phrase w = true) :
    download_audio env d w t = ⟨false, "词组已跳过", d⟩ := by
  simp [download_audio, h]

theorem download_audio_exists (env : Env) (d : DiskTrace) (w : String) (t : Nat)
    (hp : is_phrase w = false)
    (he : (env.fileExists (audioFilename w t)
            || d.written.contains (audioFilename w t)) = true) :
    download_audio env d w t = ⟨true, "已存在", d⟩ := by
  simp only [download_audio, hp, Bool.false_eq_true, if_false, he, if_true]

theorem download_audio_requests (env : Env) (d : DiskTrace) (w : String)
    (t : Nat) (hp : is_phrase w = false)
    (he : (env.fileExists (audioFilename w t)
            || d.written.contains (audioFilename w t)) = false) :
    (download_audio env d w t).disk.requests = d.requests ++ [(w, t)] := by
  simp only [download_audio, hp, Bool.false_eq_true, if_false, he]
  cases env.http w t with
  | err m => rfl
  | ok ct n =>
    by_cases hv : validAudio ct n
    · simp [hv]
    · simp [hv]

/-- A word that strips to the empty string leaves the loop state unchanged. -/
theorem wordStep_empty (env : Env) (st : LoopSt) (i : Nat) (e : RawEntry)
    (h : strippedWord e = "") : wordStep env st i e = st := by
  rw [wordStep]
  simp [h]

/-- A phrase word only bumps the skipped counter and statistic. -/
theorem wordStep_phrase (env : Env) (st : LoopSt) (i : Nat) (e : RawEntry)
    (h : is_phrase (strippedWord e) = true) :
    wordStep env st i e =
      { st with skipped_count := st.skipped_count + 1,
                stats := { st.stats with
                  skipped_phrases := st.stats.skipped_phrases + 1 } } := by
  have hne : strippedWord e ≠ "" := by
    intro h0
    rw [h0] at h
    exact absurd h (by decide)
  rw [wordStep]
  simp only [hne, if_false, h, if_true]

/-- In the processed (non-empty, non-phrase) case, `wordStep` is the two
sequential downloads followed by the counter update and the conditional
checkpoint. -/
theorem wordStep_processed (env : Env) (st : LoopSt) (i : Nat) (e : RawEntry)
    (hne : strippedWord e ≠ "") (hp : is_phrase (strippedWord e) = false) :
    wordStep env st i e =
      (let r1 := download_audio env st.disk (strippedWord e) 1
       let r2 := download_audio env r1.disk (strippedWord e) 2
       let st2 : LoopSt :=
         if r1.success && r2.success then
           { st with disk := r2.disk,
                     success_count := st.success_count + 1,
                     stats := { st.stats with
                       downloaded_audios := st.stats.downloaded_audios + 2 } }
         else
           { st with disk := r2.disk,
                     fail_count := st.fail_count + 1,
                     stats := { st.stats with
                       failed_downloads := st.stats.failed_downloads + 1 } }
       if i % 10 = 0 then
         { st2 with
             frec := { st2.frec with completed_words := st2.success_count,
                                     failed_words := st2.fail_count },
             saves := st2.saves ++
               [({ st2.frec with completed_words := st2.success_count,
                                 failed_words := st2.fail_count }, st2.stats)],
             saveIdx := st2.saveIdx ++ [i] }
       else st2) := by
  rw [wordStep]
  simp only [hne, if_false, hp, Bool.false_eq_true]

/-- Claim C4 (corrected): any word whose *stripped* `headWord` contains a space
or a hyphen is skipped entirely: the loop state changes only by incrementing
the local skipped counter and the `skipped_phrases` statistic — in particular
no network request is issued, no audio file is written, and
`downloaded_audios` and `failed_downloads` are untouched. -/
theorem phrase_word_skipped (env : Env) (st : LoopSt) (i : Nat) (e : RawEntry)
    (h : is_phrase (strippedWord e) = true) :
    wordStep env st i e =
      { st with skipped_count := st.skipped_count + 1,
                stats := { st.stats with
                  skipped_phrases := st.stats.skipped_phrases + 1 } } :=
  wordStep_phrase env st i e h

/-- Witness for the C4 theorem: a hyphenated word is skipped and counted. -/
theorem phrase_word_skipped_witness :
    is_phrase (strippedWord { headWord := some "well-known", wordRank := none,
                              payload := 0 }) = true
    ∧ wordStep envOkAll demoSt 1
        { headWord := some "well-known", wordRank := none, payload := 0 } =
      { demoSt with skipped_count := demoSt.skipped_count + 1,
                    stats := { demoSt.stats with
                      skipped_phrases := demoSt.stats.skipped_phrases + 1 } } :=
  ⟨by decide,
   phrase_word_skipped envOkAll demoSt 1
     { headWord := some "well-known", wordRank := none, payload := 0 }
     (by decide)⟩

/-- Counterexample to claim C4 as stated: the entry whose `headWord` is `" dog"` contains a
space, yet `process_file` strips it to `"dog"`, classifies it as a plain word,
issues two network requests for it and leaves `skipped_phrases` untouched. -/
theorem leading_space_word_not_skipped :
    (" dog").data.contains ' ' = true
    ∧ (wordStep envOkAll demoSt 1
        { headWord := some " dog", wordRank := none, payload := 0 }).disk.requests
        = [("dog", 1), ("dog", 2)]
    ∧ (wordStep envOkAll demoSt 1
        { headWord := some " dog", wordRank := none, payload := 0 }).stats.skipped_phrases
        = 0 := by
  refine ⟨by decide, ?_, ?_⟩
  · decide
  · decide

/-- Claim C5 (confirmed): for a non-phrase word both variant downloads run in
sequence: the final disk trace is that of the type-2 download computed from
the type-1 result's disk state whatever the type-1 outcome, and a type-2
request goes out whenever its target file is absent even if type 1 failed
(no short-circuit). The word counts as succeeded (`success_count` and
`downloaded_audios` updated) iff BOTH variants succeed; otherwise
`fail_count` and `failed_downloads` are incremented instead. -/
theorem both_variants_no_short_circuit (env : Env) (st : LoopSt) (i : Nat)
    (e : RawEntry) (hne : strippedWord e ≠ "")
    (hp : is_phrase (strippedWord e) = false) :
    ((wordStep env st i e).disk =
      (download_audio env (download_audio env st.disk (strippedWord e) 1).disk
        (strippedWord e) 2).disk)
    ∧ ((wordStep env st i e).success_count = st.success_count +
        (if (download_audio env st.disk (strippedWord e) 1).success &&
            (download_audio env
              (download_audio env st.disk (strippedWord e) 1).disk
              (strippedWord e) 2).success then 1 else 0))
    ∧ ((wordStep env st i e).fail_count = st.fail_count +
        (if (download_audio env st.disk (strippedWord e) 1).success &&
            (download_audio env
              (download_audio env st.disk (strippedWord e) 1).disk
              (strippedWord e) 2).success then 0 else 1))
    ∧ ((wordStep env st i e).stats.downloaded_audios =
        st.stats.downloaded_audios +
        (if (download_audio env st.disk (strippedWord e) 1).success &&
            (download_audio env
              (download_audio env st.disk (strippedWord e) 1).disk
              (strippedWord e) 2).success then 2 else 0))
    ∧ ((wordStep env st i e).stats.failed_downloads =
        st.stats.failed_downloads +
        (if (download_audio env st.disk (strippedWord e) 1).success &&
            (download_audio env
              (download_audio env st.disk (strippedWord e) 1).disk
              (strippedWord e) 2).success then 0 else 1))
    ∧ ((env.fileExists (audioFilename (strippedWord e) 2)
          || (download_audio env st.disk
                (strippedWord e) 1).disk.written.contains
              (audioFilename (strippedWord e) 2)) = false →
        (strippedWord e, 2) ∈ (wordStep env st i e).disk.requests) := by
  have hw := wordStep_processed env st i e hne hp
  have hdisk : (wordStep env st i e).disk =
      (download_audio env (download_audio env st.disk (strippedWord e) 1).disk
        (strippedWord e) 2).disk := by
    rw [hw]
    by_cases hok : ((download_audio env st.disk (strippedWord e) 1).success &&
        (download_audio env (download_audio env st.disk (strippedWord e) 1).disk
          (strippedWord e) 2).success) = true
    · by_cases him : i % 10 = 0
      · simp [hok, him]
      · simp [hok, him]
    · rw [Bool.not_eq_true] at hok
      by_cases him : i % 10 = 0
      · simp [hok, him]
      · simp [hok, him]
  refine ⟨hdisk, ?_, ?_, ?_, ?_, ?_⟩
  · rw [hw]
    by_cases hok : ((download_audio env st.disk (strippedWord e) 1).success &&
        (download_audio env (download_audio env st.disk (strippedWord e) 1).disk
          (strippedWord e) 2).success) = true
    · by_cases him : i % 10 = 0
      · simp [hok, him]
      · simp [hok, him]
    · rw [Bool.not_eq_true] at hok
      by_cases him : i % 10 = 0
      · simp [hok, him]
      · simp [hok, him]
  · rw [hw]
    by_cases hok : ((download_audio env st.disk (strippedWord e) 1).success &&
        (download_audio env (download_audio env st.disk (strippedWord e) 1).disk
          (strippedWord e) 2).success) = true
    · by_cases him : i % 10 = 0
      · simp [hok, him]
      · simp [hok, him]
    · rw [Bool.not_eq_true] at hok
      by_cases him : i % 10 = 0
      · simp [hok, him]
      · simp [hok, him]
  · rw [hw]
    by_cases hok : ((download_audio env st.disk (strippedWord e) 1).success &&
        (download_audio env (download_audio env st.disk (strippedWord e) 1).disk
          (strippedWord e) 2).success) = true
    · by_cases him : i % 10 = 0
      · simp [hok, him]
      · simp [hok, him]
    · rw [Bool.not_eq_true] at hok
      by_cases him : i % 10 = 0
      · simp [hok, him]
      · simp [hok, him]
  · rw [hw]
    by_cases hok : ((download_audio env st.disk (strippedWord e) 1).success &&
        (download_audio env (download_audio env st.disk (strippedWord e) 1).disk
          (strippedWord e) 2).success) = true
    · by_cases him : i % 10 = 0
      · simp [hok, him]
      · simp [hok, him]
    · rw [Bool.not_eq_true] at hok
      by_cases him : i % 10 = 0
      · simp [hok, him]
      · simp [hok, him]
  · intro he
    rw [hdisk, download_audio_requests env _ (strippedWord e) 2 hp he]
    exact List.mem_append_right _ (List.mem_singleton_self _)

/-- Witness for the C5 theorem: with the type-1 request failing, the type-2
request is still issued for `"solo"`, showing the absence of a short
circuit. -/
theorem both_variants_no_short_circuit_witness :
    (strippedWord eSolo ≠ "" ∧ is_phrase (strippedWord eSolo) = false)
    ∧ (strippedWord eSolo, 2) ∈
        (wordStep envFail1 demoSt 1 eSolo).disk.requests :=
  ⟨⟨by decide, by decide⟩,
   (both_variants_no_short_circuit envFail1 demoSt 1 eSolo (by decide)
      (by decide)).2.2.2.2.2 (by decide)⟩

/-- Claim C10 (confirmed): a word whose `headWord` is missing, empty, or
whitespace-only strips to the empty string and is skipped silently: the whole
loop state (counters, statistics, traces, record, checkpoint writes) is
unchanged. Consequently, on the demo one-word file whose only `headWord` is
whitespace, `process_file` ends with all per-word counters zero while the
record's `word_count` is 1. -/
theorem empty_word_silently_skipped :
    (∀ (env : Env) (st : LoopSt) (i : Nat) (e : RawEntry),
        strippedWord e = "" → wordStep env st i e = st)
    ∧ ((process_file envOkAll demoTodos "words_001.json"
          (ReadResult.ok [{ headWord := some "   ", wordRank := none,
                            payload := 0 }])).success_count = 0
      ∧ (process_file envOkAll demoTodos "words_001.json"
          (ReadResult.ok [{ headWord := some "   ", wordRank := none,
                            payload := 0 }])).fail_count = 0
      ∧ (process_file envOkAll demoTodos "words_001.json"
          (ReadResult.ok [{ headWord := some "   ", wordRank := none,
                            payload := 0 }])).skipped_count = 0
      ∧ (process_file envOkAll demoTodos "words_001.json"
          (ReadResult.ok [{ headWord := some "   ", wordRank := none,
                            payload := 0 }])).disk.requests = []
      ∧ (process_file envOkAll demoTodos "words_001.json"
          (ReadResult.ok [{ headWord := some "   ", wordRank := none,
                            payload := 0 }])).todos.files.map
            (fun f => (f.completed_words + f.failed_words, f.word_count))
          = [(0, 1)]) := by
  constructor
  · intro env st i e h
    rw [wordStep]
    simp [h]
  · refine ⟨?_, ?_, ?_, ?_, ?_⟩ <;> decide

/-- Witness for the C10 theorem at a concrete whitespace-only entry. -/
theorem empty_word_silently_skipped_witness :
    strippedWord { headWord := some "  ", wordRank := none, payload := 0 } = ""
    ∧ wordStep envOkAll demoSt 3
        { headWord := some "  ", wordRank := none, payload := 0 } = demoSt :=
  ⟨by decide,
   empty_word_silently_skipped.1 envOkAll demoSt 3
     { headWord := some "  ", wordRank := none, payload := 0 } (by decide)⟩

/-! ## C9: the `downloaded_audios` statistic -/

theorem initStep_downloaded (readFile : String → Option (List RawEntry)) :
    ∀ (l : List String) (t : Todos),
      ((l.foldl (initStep readFile) t).statistics.downloaded_audios) =
        t.statistics.downloaded_audios := by
  intro l
  induction l with
  | nil => intro t; rfl
  | cons f l ih =>
    intro t
    rw [List.foldl_cons, ih]
    cases hrf : readFile f <;> simp [initStep, hrf]

theorem wordStep_downloaded (env : Env) (st : LoopSt) (i : Nat) (e : RawEntry) :
    (wordStep env st i e).stats.downloaded_audios = st.stats.downloaded_audios
    ∨ ((wordStep env st i e).stats.downloaded_audios =
          st.stats.downloaded_audios + 2
        ∧ (download_audio env st.disk (strippedWord e) 1).success = true
        ∧ (download_audio env
            (download_audio env st.disk (strippedWord e) 1).disk
            (strippedWord e) 2).success = true) := by
  by_cases hne : strippedWord e = ""
  · left
    rw [wordStep]
    simp [hne]
  · by_cases hp : is_phrase (strippedWord e) = true
    · left
      rw [wordStep_phrase env st i e hp]
    · rw [Bool.not_eq_true] at hp
      rw [wordStep_processed env st i e hne hp]
      by_cases hok : ((download_audio env st.disk (strippedWord e) 1).success &&
          (download_audio env
            (download_audio env st.disk (strippedWord e) 1).disk
            (strippedWord e) 2).success) = true
      · right
        have hok2 := hok
        rw [Bool.and_eq_true] at hok2
        refine ⟨?_, hok2.1, hok2.2⟩
        by_cases him : i % 10 = 0
        · simp [hok, him]
        · simp [hok, him]
      · left
        rw [Bool.not_eq_true] at hok
        by_cases him : i % 10 = 0
        · simp [hok, him]
        · simp [hok, him]

theorem processFrom_downloaded_even (env : Env) (ws : List RawEntry) :
    ∀ (st : LoopSt) (i : Nat), 2 ∣ st.stats.downloaded_audios →
      2 ∣ (processFrom env st i ws).stats.downloaded_audios := by
  induction ws with
  | nil => intro st i h; exact h
  | cons e ws ih =>
    intro st i h
    rw [processFrom]
    apply ih
    rcases wordStep_downloaded env st i e with h1 | ⟨h1, _, _⟩
    · rw [h1]; exact h
    · rw [h1]; omega

/-- Claim C9 (confirmed): `downloaded_audios` is 0 in a fresh checkpoint; a word
step either leaves it unchanged or adds exactly 2, the latter only when both
variant downloads succeed; hence its evenness is preserved by any run of the
word loop. A word with exactly one successful variant (the `solo` demo word
under an environment failing type-2 requests) writes one audio file to disk
yet contributes 0 to `downloaded_audios` and 1 to `failed_downloads`, so
`downloaded_audios` undercounts the audio files actually written. -/
theorem downloaded_audios_even_undercounts :
    (∀ (listing : List String) (readFile : String → Option (List RawEntry)),
        (create_initial_todos listing readFile).statistics.downloaded_audios = 0)
    ∧ (∀ (env : Env) (st : LoopSt) (i : Nat) (e : RawEntry),
        (wordStep env st i e).stats.downloaded_audios =
            st.stats.downloaded_audios
        ∨ ((wordStep env st i e).stats.downloaded_audios =
              st.stats.downloaded_audios + 2
            ∧ (download_audio env st.disk (strippedWord e) 1).success = true
            ∧ (download_audio env
                (download_audio env st.disk (strippedWord e) 1).disk
                (strippedWord e) 2).success = true))
    ∧ (∀ (env : Env) (st : LoopSt) (i : Nat) (ws : List RawEntry),
        2 ∣ st.stats.downloaded_audios →
        2 ∣ (processFrom env st i ws).stats.downloaded_audios)
    ∧ ((wordStep envFail2 demoSt 1 eSolo).disk.written = ["solo_uk.mp3"]
      ∧ (wordStep envFail2 demoSt 1 eSolo).stats.downloaded_audios = 0
      ∧ (wordStep envFail2 demoSt 1 eSolo).stats.failed_downloads = 1) := by
  refine ⟨?_, wordStep_downloaded, ?_, ?_, ?_, ?_⟩
  · intro listing readFile
    rw [create_initial_todos]
    simp only [initStep_downloaded]
    rfl
  · intro env st i ws
    exact processFrom_downloaded_even env ws st i
  · decide
  · decide
  · decide

/-- Witness for the C9 theorem: evenness propagation applied to the ten-word
demo file from the all-zero (even) starting statistics. -/
theorem downloaded_audios_even_undercounts_witness :
    2 ∣ demoSt.stats.downloaded_audios
    ∧ 2 ∣ (processFrom envOkAll demoSt 1 tenWords).stats.downloaded_audios :=
  ⟨by decide,
   downloaded_audios_even_undercounts.2.2.1 envOkAll demoSt 1 tenWords
     (by decide)⟩

/-! ## C6: when the checkpoint is written -/

theorem wordStep_saveIdx (env : Env) (st : LoopSt) (i : Nat) (e : RawEntry) :
    (wordStep env st i e).saveIdx = st.saveIdx ++
      (if i % 10 = 0 ∧ processedWord e = true then [i] else []) := by
  by_cases hne : strippedWord e = ""
  · have hpw : processedWord e = false := by simp [processedWord, hne]
    rw [wordStep]
    simp [hne, hpw]
  · by_cases hp : is_phrase (strippedWord e) = true
    · have hpw : processedWord e = false := by simp [processedWord, hp]
      rw [wordStep_phrase env st i e hp]
      simp [hpw]
    · rw [Bool.not_eq_true] at hp
      have hpw : processedWord e = true := by simp [processedWord, hne, hp]
      rw [wordStep_processed env st i e hne hp]
      by_cases hok : ((download_audio env st.disk (strippedWord e) 1).success &&
          (download_audio env
            (download_audio env st.disk (strippedWord e) 1).disk
            (strippedWord e) 2).success) = true
      · by_cases him : i % 10 = 0
        · simp [hok, him, hpw]
        · simp [hok, him, hpw]
      · rw [Bool.not_eq_true] at hok
        by_cases him : i % 10 = 0
        · simp [hok, him, hpw]
        · simp [hok, him, hpw]

theorem wordStep_saves_length (env : Env) (st : LoopSt) (i : Nat)
    (e : RawEntry) :
    (wordStep env st i e).saves.length = st.saves.length +
      (if i % 10 = 0 ∧ processedWord e = true then 1 else 0) := by
  by_cases hne : strippedWord e = ""
  · have hpw : processedWord e = false := by simp [processedWord, hne]
    rw [wordStep]
    simp [hne, hpw]
  · by_cases hp : is_phrase (strippedWord e) = true
    · have hpw : processedWord e = false := by simp [processedWord, hp]
      rw [wordStep_phrase env st i e hp]
      simp [hpw]
    · rw [Bool.not_eq_true] at hp
      have hpw : processedWord e = true := by simp [processedWord, hne, hp]
      rw [wordStep_processed env st i e hne hp]
      by_cases hok : ((download_audio env st.disk (strippedWord e) 1).success &&
          (download_audio env
            (download_audio env st.disk (strippedWord e) 1).disk
            (strippedWord e) 2).success) = true
      · by_cases him : i % 10 = 0
        · simp [hok, him, hpw]
        · simp [hok, him, hpw]
      · rw [Bool.not_eq_true] at hok
        by_cases him : i % 10 = 0
        · simp [hok, him, hpw]
        · simp [hok, him, hpw]

theorem processFrom_saveIdx (env : Env) (ws : List RawEntry) :
    ∀ (st : LoopSt) (i : Nat),
      (processFrom env st i ws).saveIdx = st.saveIdx ++ loopSaveIndices i ws := by
  induction ws with
  | nil => intro st i; simp [processFrom, loopSaveIndices]
  | cons e ws ih =>
    intro st i
    rw [processFrom, ih, loopSaveIndices, wordStep_saveIdx,
      List.append_assoc]

theorem processFrom_saves_length (env : Env) (ws : List RawEntry) :
    ∀ (st : LoopSt) (i : Nat),
      (processFrom env st i ws).saves.length =
        st.saves.length + (loopSaveIndices i ws).length := by
  induction ws with
  | nil => intro st i; simp [processFrom, loopSaveIndices]
  | cons e ws ih =>
    intro st i
    rw [processFrom, ih, loopSaveIndices, wordStep_saves_length]
    by_cases hc : i % 10 = 0 ∧ processedWord e = true
    · rw [if_pos hc, if_pos hc]
      simp only [List.length_append, List.length_cons, List.length_nil]
      omega
    · simp [hc]

/-- Claim C6 (corrected): during `process_file` on a readable, not-yet-completed
file, a mid-loop checkpoint write happens after the word at 1-based index `i`
exactly when `i` is a multiple of 10 AND that word was actually processed (an
empty or phrase word at a multiple-of-10 index `continue`s past the save); one
further checkpoint write always happens at file completion, persisting the
record with status completed. -/
theorem checkpoint_saves_positions (env : Env) (todos : Todos)
    (filename : String) (words : List RawEntry) (fi : FileStatusRec)
    (hfind : todos.files.find? (fun f => f.filename = filename) = some fi)
    (hst : fi.status ≠ Status.completed) :
    (process_file env todos filename (ReadResult.ok words)).saveIdx =
      loopSaveIndices 1 words
    ∧ (process_file env todos filename (ReadResult.ok words)).saves.length =
        (loopSaveIndices 1 words).length + 1
    ∧ ((process_file env todos filename
          (ReadResult.ok words)).saves.getLast?).map (fun p => p.1.status) =
        some Status.completed := by
  simp only [process_file, hfind]
  rw [if_neg hst]
  refine ⟨?_, ?_, ?_⟩
  · rw [processFrom_saveIdx]
    rfl
  · simp [processFrom_saves_length]
  · rw [List.getLast?_concat]
    rfl

/-- Witness for the C6 theorem at the ten-word demo file: the only checkpoint
writes are the multiples of 10 at processed words (none here, since word 10 is
a phrase) plus the final one. -/
theorem checkpoint_saves_positions_witness :
    demoTodos10.files.find? (fun f => f.filename = "words_001.json") =
      some ⟨"words_001.json", 10, Status.pending, 0, 0, none⟩
    ∧ (process_file envOkAll demoTodos10 "words_001.json"
        (ReadResult.ok tenWords)).saveIdx = loopSaveIndices 1 tenWords :=
  ⟨by decide,
   (checkpoint_saves_positions envOkAll demoTodos10 "words_001.json" tenWords
      ⟨"words_001.json", 10, Status.pending, 0, 0, none⟩ (by decide)
      (by decide)).1⟩

/-- Counterexample to claim C6 as stated: a ten-word file whose 10th word is the phrase
`"a b"`: the first nine words are downloaded, yet no checkpoint is written
after the 10th word — the only write is the one at file completion — contrary
to the claim that the checkpoint is written after the 10th word of the file. -/
theorem tenth_word_phrase_no_midloop_save :
    tenWords.length = 10
    ∧ (process_file envOkAll demoTodos10 "words_001.json"
        (ReadResult.ok tenWords)).success_count = 9
    ∧ (process_file envOkAll demoTodos10 "words_001.json"
        (ReadResult.ok tenWords)).saveIdx = []
    ∧ (process_file envOkAll demoTodos10 "words_001.json"
        (ReadResult.ok tenWords)).saves.length = 1 := by
  refine ⟨by decide, ?_, ?_, ?_⟩
  · decide
  · decide
  · decide

/-! ## C7: status transitions and counter monotonicity -/

theorem savesInv_bump (st : LoopSt) (s f : Nat) (stats : Statistics)
    (disk : DiskTrace) (h : SavesInv st) (hs : st.success_count ≤ s)
    (hf : st.fail_count ≤ f) :
    SavesInv { st with success_count := s, fail_count := f, stats := stats,
                       disk := disk } := by
  obtain ⟨h1, h2, h3⟩ := h
  refine ⟨?_, h2, h3⟩
  intro p hp
  obtain ⟨a, b, c⟩ := h1 p hp
  exact ⟨a.trans hs, b.trans hf, c⟩

theorem savesInv_append (st2 : LoopSt) (i : Nat) (h : SavesInv st2) :
    SavesInv { st2 with
      frec := { st2.frec with completed_words := st2.success_count,
                              failed_words := st2.fail_count },
      saves := st2.saves ++
        [({ st2.frec with completed_words := st2.success_count,
                          failed_words := st2.fail_count }, st2.stats)],
      saveIdx := st2.saveIdx ++ [i] } := by
  obtain ⟨h1, h2, h3⟩ := h
  refine ⟨?_, ?_, ?_⟩
  · intro p hp
    simp only [List.mem_append, List.mem_singleton] at hp
    rcases hp with hp | hp
    · obtain ⟨a, b, c⟩ := h1 p hp
      exact ⟨a, b, c⟩
    · rw [hp]
      exact ⟨Nat.le_refl _, Nat.le_refl _, rfl⟩
  · rw [List.map_append, List.pairwise_append]
    refine ⟨h2, List.pairwise_singleton _ _, ?_⟩
    intro x hx y hy
    simp only [List.map_cons, List.map_nil, List.mem_singleton] at hy
    obtain ⟨p, hp, hpx⟩ := List.mem_map.mp hx
    rw [hy, ← hpx]
    exact (h1 p hp).1
  · rw [List.map_append, List.pairwise_append]
    refine ⟨h3, List.pairwise_singleton _ _, ?_⟩
    intro x hx y hy
    simp only [List.map_cons, List.map_nil, List.mem_singleton] at hy
    obtain ⟨p, hp, hpx⟩ := List.mem_map.mp hx
    rw [hy, ← hpx]
    exact (h1 p hp).2.1

theorem wordStep_savesInv (env : Env) (st : LoopSt) (i : Nat) (e : RawEntry)
    (h : SavesInv st) :
    SavesInv (wordStep env st i e)
    ∧ st.success_count ≤ (wordStep env st i e).success_count
    ∧ st.fail_count ≤ (wordStep env st i e).fail_count
    ∧ (wordStep env st i e).frec.status = st.frec.status := by
  by_cases hne : strippedWord e = ""
  · rw [wordStep_empty env st i e hne]
    exact ⟨h, Nat.le_refl _, Nat.le_refl _, rfl⟩
  · by_cases hp : is_phrase (strippedWord e) = true
    · rw [wordStep_phrase env st i e hp]
      exact ⟨h, Nat.le_refl _, Nat.le_refl _, rfl⟩
    · rw [Bool.not_eq_true] at hp
      rw [wordStep_processed env st i e hne hp]
      by_cases hok : ((download_audio env st.disk (strippedWord e) 1).success &&
          (download_audio env
            (download_audio env st.disk (strippedWord e) 1).disk
            (strippedWord e) 2).success) = true
      · by_cases him : i % 10 = 0
        · simp only [hok, if_true, him]
          exact ⟨savesInv_append _ i
              (savesInv_bump st (st.success_count + 1) st.fail_count _ _ h
                (Nat.le_succ _) (Nat.le_refl _)),
            Nat.le_succ _, Nat.le_refl _, trivial⟩
        · simp only [hok, if_true, him, if_false]
          exact ⟨savesInv_bump st (st.success_count + 1) st.fail_count _ _ h
              (Nat.le_succ _) (Nat.le_refl _),
            Nat.le_succ _, Nat.le_refl _, trivial⟩
      · rw [Bool.not_eq_true] at hok
        by_cases him : i % 10 = 0
        · simp only [hok, Bool.false_eq_true, if_false, him, if_true]
          exact ⟨savesInv_append _ i
              (savesInv_bump st st.success_count (st.fail_count + 1) _ _ h
                (Nat.le_refl _) (Nat.le_succ _)),
            Nat.le_refl _, Nat.le_succ _, trivial⟩
        · simp only [hok, Bool.false_eq_true, if_false, him]
          exact ⟨savesInv_bump st st.success_count (st.fail_count + 1) _ _ h
              (Nat.le_refl _) (Nat.le_succ _),
            Nat.le_refl _, Nat.le_succ _, trivial⟩

theorem processFrom_savesInv (env : Env) (ws : List RawEntry) :
    ∀ (st : LoopSt) (i : Nat), SavesInv st →
      SavesInv (processFrom env st i ws)
      ∧ st.success_count ≤ (processFrom env st i ws).success_count
      ∧ st.fail_count ≤ (processFrom env st i ws).fail_count
      ∧ (processFrom env st i ws).frec.status = st.frec.status := by
  induction ws with
  | nil =>
    intro st i h
    exact ⟨h, Nat.le_refl _, Nat.le_refl _, rfl⟩
  | cons e ws ih =>
    intro st i h
    rw [processFrom]
    obtain ⟨h1, h2, h3, h4⟩ := wordStep_savesInv env st i e h
    obtain ⟨g1, g2, g3, g4⟩ := ih (wordStep env st i e) (i + 1) h1
    exact ⟨g1, h2.trans g2, h3.trans g3, g4.trans h4⟩

/-- Claim C7 (corrected): within one run of `process_file` on a tracked,
not-yet-completed file: on an unrecoverable file-read error the record is
persisted as failed directly from whatever status it had — without passing
through processing — with its counters untouched; on a successful read every
mid-loop snapshot persists status processing and the final snapshot persists
status completed (individual word failures never produce a failed status),
and the persisted `completed_words` and `failed_words` sequences are
non-decreasing over the run. -/
theorem file_status_transitions (env : Env) (todos : Todos) (filename : String)
    (fi : FileStatusRec)
    (hfind : todos.files.find? (fun f => f.filename = filename) = some fi)
    (hst : fi.status ≠ Status.completed) :
    ((process_file env todos filename ReadResult.err).saves =
      [({ fi with status := Status.failed }, todos.statistics)])
    ∧ ∀ words : List RawEntry,
        (∀ p ∈ (process_file env todos filename
            (ReadResult.ok words)).saves.dropLast,
          p.1.status = Status.processing)
        ∧ (((process_file env todos filename
              (ReadResult.ok words)).saves.getLast?).map
            (fun p => p.1.status) = some Status.completed)
        ∧ ((process_file env todos filename
              (ReadResult.ok words)).saves.map
            (fun p => p.1.completed_words)).Pairwise (· ≤ ·)
        ∧ ((process_file env todos filename
              (ReadResult.ok words)).saves.map
            (fun p => p.1.failed_words)).Pairwise (· ≤ ·) := by
  constructor
  · simp only [process_file, hfind]
    rw [if_neg hst]
  · intro words
    simp only [process_file, hfind]
    rw [if_neg hst]
    have hInv0 : SavesInv (⟨0, 0, 0, todos.statistics,
        { fi with status := Status.processing, last_updated := some env.now },
        ⟨[], []⟩, [], []⟩ : LoopSt) := by
      refine ⟨?_, ?_, ?_⟩
      · intro p hp
        exact absurd hp (List.not_mem_nil p)
      · exact List.Pairwise.nil
      · exact List.Pairwise.nil
    obtain ⟨⟨hb, hc, hd⟩, hs, hf, hstat⟩ :=
      processFrom_savesInv env words _ 1 hInv0
    refine ⟨?_, ?_, ?_, ?_⟩
    · rw [List.dropLast_concat]
      intro p hp
      exact ((hb p hp).2.2).trans hstat
    · rw [List.getLast?_concat]
      rfl
    · rw [List.map_append, List.pairwise_append]
      refine ⟨hc, List.pairwise_singleton _ _, ?_⟩
      intro x hx y hy
      simp only [List.map_cons, List.map_nil, List.mem_singleton] at hy
      obtain ⟨p, hp, hpx⟩ := List.mem_map.mp hx
      rw [hy, ← hpx]
      exact (hb p hp).1
    · rw [List.map_append, List.pairwise_append]
      refine ⟨hd, List.pairwise_singleton _ _, ?_⟩
      intro x hx y hy
      simp only [List.map_cons, List.map_nil, List.mem_singleton] at hy
      obtain ⟨p, hp, hpx⟩ := List.mem_map.mp hx
      rw [hy, ← hpx]
      exact (hb p hp).2.1

/-- Witness for the C7 theorem at the demo checkpoint: a read error persists
the pending record as failed. -/
theorem file_status_transitions_witness :
    demoTodos.files.find? (fun f => f.filename = "words_001.json") =
      some ⟨"words_001.json", 1, Status.pending, 0, 0, none⟩
    ∧ (process_file envOkAll demoTodos "words_001.json" ReadResult.err).saves =
      [(⟨"words_001.json", 1, Status.failed, 0, 0, none⟩,
        demoTodos.statistics)] :=
  ⟨by decide,
   (file_status_transitions envOkAll demoTodos "words_001.json"
      ⟨"words_001.json", 1, Status.pending, 0, 0, none⟩ (by decide)
      (by decide)).1⟩

/-- Counterexample to claim C7 as stated: on a file-read error the persisted status goes
straight from pending to failed — the transition does not pass through
processing, contrary to the claimed transition diagram
pending/failed → processing → completed|failed. -/
theorem read_error_pending_to_failed :
    demoTodos.files.map (fun f => f.status) = [Status.pending]
    ∧ (process_file envOkAll demoTodos "words_001.json"
        ReadResult.err).saves.map (fun p => p.1.status) = [Status.failed] := by
  exact ⟨by decide, by decide⟩

/-! ## C8: rescan only appends -/

theorem rescan_fold (existing : List String)
    (readFile : String → Option (List RawEntry)) :
    ∀ (l : List String) (t : Todos),
      l.foldl (rescanStep existing readFile) t =
        { files := t.files ++ newRecords existing readFile l
          completed_files := t.completed_files
          statistics := { t.statistics with
            total_words := t.statistics.total_words +
              ((newRecords existing readFile l).map
                (fun r => r.word_count)).sum
            total_files := t.statistics.total_files +
              (newRecords existing readFile l).length } } := by
  intro l
  induction l with
  | nil =>
    intro t
    simp [newRecords]
  | cons f l ih =>
    intro t
    rw [List.foldl_cons, ih]
    by_cases hex : existing.contains f = true
    · have hex2 : f ∈ existing := by simpa using hex
      simp [rescanStep, hex2, newRecords]
    · rw [Bool.not_eq_true] at hex
      have hex2 : f ∉ existing := by simpa using hex
      cases hrf : readFile f with
      | none => simp [rescanStep, hex2, newRecords, hrf]
      | some ws =>
        simp [rescanStep, hex2, hrf, newRecords, initialFileRec,
          List.append_assoc, Nat.add_assoc, Nat.add_comm, Nat.add_left_comm]

/-- Claim C8 (confirmed): `rescan_files` only appends: the tracked records are
exactly the old ones (unchanged, none removed or re-validated) followed by one
fresh pending record with zeroed counters per readable newly listed `.json`
file; `completed_files` is untouched; and the statistics change only by adding
the new files' word counts to `total_words` and their number to
`total_files`. -/
theorem rescan_appends_only (todos : Todos) (listing : List String)
    (readFile : String → Option (List RawEntry)) :
    (rescan_files todos listing readFile).files =
      todos.files ++
        newRecords (todos.files.map (fun f => f.filename)) readFile
          (List.insertionSort (fun a b : String => a ≤ b)
            (listing.filter jsonName))
    ∧ (rescan_files todos listing readFile).completed_files =
        todos.completed_files
    ∧ (rescan_files todos listing readFile).statistics =
        { todos.statistics with
          total_words := todos.statistics.total_words +
            ((newRecords (todos.files.map (fun f => f.filename)) readFile
              (List.insertionSort (fun a b : String => a ≤ b)
                (listing.filter jsonName))).map (fun r => r.word_count)).sum
          total_files := todos.statistics.total_files +
            (newRecords (todos.files.map (fun f => f.filename)) readFile
              (List.insertionSort (fun a b : String => a ≤ b)
                (listing.filter jsonName))).length }
    ∧ ∀ r ∈ newRecords (todos.files.map (fun f => f.filename)) readFile
          (List.insertionSort (fun a b : String => a ≤ b)
            (listing.filter jsonName)),
        r.status = Status.pending ∧ r.completed_words = 0
        ∧ r.failed_words = 0 ∧ r.last_updated = none := by
  have h := rescan_fold (todos.files.map (fun f => f.filename)) readFile
    (List.insertionSort (fun a b : String => a ≤ b) (listing.filter jsonName))
    todos
  refine ⟨?_, ?_, ?_, ?_⟩
  · rw [rescan_files, h]
  · rw [rescan_files, h]
  · rw [rescan_files, h]
  · intro r hr
    simp only [newRecords, List.mem_filterMap] at hr
    obtain ⟨f, _, hsome⟩ := hr
    split at hsome
    · exact absurd hsome (by simp)
    · cases hrf : readFile f with
      | none =>
        rw [hrf] at hsome
        exact absurd hsome (by simp)
      | some ws =>
        rw [hrf] at hsome
        rw [Option.map_some', Option.some_inj] at hsome
        rw [← hsome]
        exact ⟨rfl, rfl, rfl, rfl⟩

/-- Witness for the C8 theorem: the fresh record appended for the new
`words_002.json` is pending with zeroed counters. -/
theorem rescan_appends_only_witness :
    initialFileRec "words_002.json" 2 ∈
      newRecords (demoTodos.files.map (fun f => f.filename)) demoRead
        (List.insertionSort (fun a b : String => a ≤ b)
          (["words_002.json"].filter jsonName))
    ∧ (initialFileRec "words_002.json" 2).status = Status.pending :=
  ⟨by decide,
   ((rescan_appends_only demoTodos ["words_002.json"] demoRead).2.2.2
      (initialFileRec "words_002.json" 2) (by decide)).1⟩

/-! ## C1: the deduplicator -/

theorem ddAux_congr (l : List (Option RawEntry)) :
    ∀ (seen₁ seen₂ : List String), (∀ s, s ∈ seen₁ ↔ s ∈ seen₂) →
      ddAux seen₁ l = ddAux seen₂ l := by
  induction l with
  | nil => intro seen₁ seen₂ _; rfl
  | cons line l ih =>
    intro seen₁ seen₂ h
    cases line with
    | none => exact ih seen₁ seen₂ h
    | some e =>
      rw [ddAux, ddAux]
      by_cases hc : lowerKey e = "" ∨ lowerKey e ∈ seen₁
      · rw [if_pos hc, if_pos (by rw [← h (lowerKey e)]; exact hc)]
        exact ih seen₁ seen₂ h
      · rw [if_neg hc, if_neg (by rw [← h (lowerKey e)]; exact hc)]
        rw [ih (lowerKey e :: seen₁) (lowerKey e :: seen₂) ?_]
        intro s
        simp only [List.mem_cons]
        rw [h s]

theorem foldl_dedupInsert (l : List (Option RawEntry)) :
    ∀ acc : List RawEntry,
      l.foldl dedupInsert acc = acc ++ ddAux (acc.map lowerKey) l := by
  induction l with
  | nil => intro acc; simp [ddAux]
  | cons line l ih =>
    intro acc
    cases line with
    | none =>
      rw [List.foldl_cons]
      exact ih acc
    | some e =>
      rw [List.foldl_cons]
      show List.foldl dedupInsert (dedupInsert acc (some e)) l = _
      rw [ddAux]
      by_cases hk : lowerKey e = ""
      · have hstep : dedupInsert acc (some e) = acc := by
          simp [dedupInsert, hk]
        rw [hstep, if_pos (Or.inl hk)]
        exact ih acc
      · by_cases hmem : lowerKey e ∈ acc.map lowerKey
        · have hany : acc.any (fun x => lowerKey x = lowerKey e) = true := by
            simp only [List.any_eq_true, decide_eq_true_eq]
            obtain ⟨x, hx, hxe⟩ := List.mem_map.mp hmem
            exact ⟨x, hx, hxe⟩
          have hstep : dedupInsert acc (some e) = acc := by
            simp [dedupInsert, hk, hany]
          rw [hstep, if_pos (Or.inr hmem)]
          exact ih acc
        · have hany : acc.any (fun x => lowerKey x = lowerKey e) = false := by
            simp only [List.any_eq_false, decide_eq_true_eq]
            intro x hx hxe
            exact hmem (List.mem_map.mpr ⟨x, hx, hxe⟩)
          have hstep : dedupInsert acc (some e) = acc ++ [e] := by
            simp [dedupInsert, hk, hany]
          rw [hstep, if_neg (by push_neg; exact ⟨hk, hmem⟩), ih (acc ++ [e])]
          rw [List.append_assoc]
          congr 1
          rw [List.singleton_append]
          congr 1
          rw [List.map_append]
          apply ddAux_congr
          intro s
          simp only [List.mem_append, List.mem_cons, List.map_cons,
            List.map_nil, List.mem_singleton]
          tauto

theorem collectUnique_eq (files : List (List (Option RawEntry))) :
    collectUnique files = ddAux [] files.flatten := by
  rw [collectUnique, foldl_dedupInsert]
  rfl

theorem ddAux_mem (l : List (Option RawEntry)) :
    ∀ (seen : List String), ∀ e ∈ ddAux seen l,
      lowerKey e ∉ seen ∧ lowerKey e ≠ "" ∧
        (l.filterMap id).find? (fun x => lowerKey x = lowerKey e) = some e := by
  induction l with
  | nil => intro seen e he; exact absurd he (List.not_mem_nil e)
  | cons line l ih =>
    intro seen e he
    cases line with
    | none =>
      rw [ddAux] at he
      simpa using ih seen e he
    | some a =>
      rw [ddAux] at he
      by_cases hc : lowerKey a = "" ∨ lowerKey a ∈ seen
      · rw [if_pos hc] at he
        obtain ⟨h1, h2, h3⟩ := ih seen e he
        refine ⟨h1, h2, ?_⟩
        have hne : lowerKey a ≠ lowerKey e := by
          rcases hc with hc | hc
          · rw [hc]; exact fun hh => h2 hh.symm
          · intro hh; rw [hh] at hc; exact h1 hc
        simp only [List.filterMap_cons, id, List.find?_cons]
        rw [decide_eq_false hne]
        exact h3
      · rw [if_neg hc] at he
        push_neg at hc
        obtain ⟨ha1, ha2⟩ := hc
        rcases List.mem_cons.mp he with he | he
        · subst he
          refine ⟨ha2, ha1, ?_⟩
          simp [List.filterMap_cons, List.find?_cons]
        · obtain ⟨h1, h2, h3⟩ := ih (lowerKey a :: seen) e he
          rw [List.mem_cons] at h1
          push_neg at h1
          refine ⟨h1.2, h2, ?_⟩
          simp only [List.filterMap_cons, id, List.find?_cons]
          rw [decide_eq_false (fun hh => h1.1 hh.symm)]
          exact h3

theorem ddAux_keys_nodup (l : List (Option RawEntry)) :
    ∀ seen : List String, ((ddAux seen l).map lowerKey).Nodup := by
  induction l with
  | nil => intro seen; exact List.nodup_nil
  | cons line l ih =>
    intro seen
    cases line with
    | none => exact ih seen
    | some a =>
      rw [ddAux]
      by_cases hc : lowerKey a = "" ∨ lowerKey a ∈ seen
      · rw [if_pos hc]; exact ih seen
      · rw [if_neg hc]
        rw [List.map_cons, List.nodup_cons]
        refine ⟨?_, ih (lowerKey a :: seen)⟩
        intro hmem
        obtain ⟨x, hx, hxa⟩ := List.mem_map.mp hmem
        have := (ddAux_mem l (lowerKey a :: seen) x hx).1
        rw [hxa] at this
        exact this (List.mem_cons_self _ _)

theorem ddAux_keys_mem (l : List (Option RawEntry)) :
    ∀ (seen : List String) (k : String),
      k ∈ (ddAux seen l).map lowerKey ↔
        (k ∉ seen ∧ k ≠ "" ∧ ∃ x ∈ l.filterMap id, lowerKey x = k) := by
  induction l with
  | nil => intro seen k; simp [ddAux]
  | cons line l ih =>
    intro seen k
    cases line with
    | none =>
      rw [ddAux]
      simpa using ih seen k
    | some a =>
      rw [ddAux]
      by_cases hc : lowerKey a = "" ∨ lowerKey a ∈ seen
      · rw [if_pos hc, ih seen k]
        simp only [List.filterMap_cons, id, List.mem_cons]
        constructor
        · rintro ⟨h1, h2, x, hx, hxk⟩
          exact ⟨h1, h2, x, Or.inr hx, hxk⟩
        · rintro ⟨h1, h2, x, hx, hxk⟩
          rcases hx with hx | hx
          · subst hx
            rw [hxk] at hc
            rcases hc with hc | hc
            · exact absurd hc h2
            · exact absurd hc h1
          · exact ⟨h1, h2, x, hx, hxk⟩
      · rw [if_neg hc]
        push_neg at hc
        obtain ⟨ha1, ha2⟩ := hc
        rw [List.map_cons, List.mem_cons, ih (lowerKey a :: seen) k]
        simp only [List.filterMap_cons, id, List.mem_cons]
        constructor
        · rintro (hk | ⟨h1, h2, x, hx, hxk⟩)
          · subst hk
            exact ⟨ha2, ha1, a, Or.inl rfl, rfl⟩
          · push_neg at h1
            exact ⟨h1.2, h2, x, Or.inr hx, hxk⟩
        · rintro ⟨h1, h2, x, hx, hxk⟩
          by_cases hk : k = lowerKey a
          · exact Or.inl hk
          · right
            refine ⟨?_, h2, ?_⟩
            · push_neg
              exact ⟨hk, h1⟩
            · rcases hx with hx | hx
              · subst hx
                exact absurd hxk.symm hk
              · exact ⟨x, hx, hxk⟩

theorem ddAux_sublist (l : List (Option RawEntry)) :
    ∀ seen : List String, (ddAux seen l).Sublist (l.filterMap id) := by
  induction l with
  | nil => intro seen; simp [ddAux]
  | cons line l ih =>
    intro seen
    cases line with
    | none =>
      rw [ddAux]
      simpa using ih seen
    | some a =>
      rw [ddAux]
      simp only [List.filterMap_cons, id]
      by_cases hc : lowerKey a = "" ∨ lowerKey a ∈ seen
      · rw [if_pos hc]
        exact (ih seen).cons a
      · rw [if_neg hc]
        exact (ih (lowerKey a :: seen)).cons₂ a

theorem ddAux_someFilter (l : List (Option RawEntry)) :
    ∀ seen : List String,
      ddAux seen ((l.filterMap id).map some) = ddAux seen l := by
  induction l with
  | nil => intro seen; rfl
  | cons line l ih =>
    intro seen
    cases line with
    | none =>
      rw [ddAux]
      simpa using ih seen
    | some a =>
      simp only [List.filterMap_cons, id, List.map_cons]
      rw [ddAux, ddAux]
      by_cases hc : lowerKey a = "" ∨ lowerKey a ∈ seen
      · rw [if_pos hc, if_pos hc]
        exact ih seen
      · rw [if_neg hc, if_neg hc, ih (lowerKey a :: seen)]

theorem filter_orderedInsert (p : RawEntry → Bool)
    (hp : ∀ x y, p x = true → p y = true → RankLe x y) (a : RawEntry) :
    ∀ l : List RawEntry,
      (List.orderedInsert RankLe a l).filter p =
        if p a then a :: l.filter p else l.filter p := by
  intro l
  induction l with
  | nil =>
    rw [List.orderedInsert]
    by_cases hpa : p a = true
    · simp [List.filter_cons, hpa]
    · rw [Bool.not_eq_true] at hpa
      simp [List.filter_cons, hpa]
  | cons b l ih =>
    rw [List.orderedInsert]
    by_cases hr : RankLe a b
    · rw [if_pos hr]
      by_cases hpa : p a = true
      · simp [List.filter_cons, hpa]
      · rw [Bool.not_eq_true] at hpa
        simp [List.filter_cons, hpa]
    · rw [if_neg hr]
      by_cases hpa : p a = true
      · have hpb : p b = false := by
          rw [← Bool.not_eq_true]
          intro hpb
          exact hr (hp a b hpa hpb)
        simp [List.filter_cons, hpb, ih, hpa]
      · rw [Bool.not_eq_true] at hpa
        by_cases hpb : p b = true
        · simp [List.filter_cons, hpb, ih, hpa]
        · rw [Bool.not_eq_true] at hpb
          simp [List.filter_cons, hpb, ih, hpa]

theorem filter_insertionSort (p : RawEntry → Bool)
    (hp : ∀ x y, p x = true → p y = true → RankLe x y) :
    ∀ l : List RawEntry,
      (List.insertionSort RankLe l).filter p = l.filter p := by
  intro l
  induction l with
  | nil => rfl
  | cons a l ih =>
    rw [List.insertionSort, filter_orderedInsert p hp a _, ih, List.filter_cons]

theorem renumber_map_lowerKey (l : List RawEntry) :
    ∀ n : Nat, (renumber n l).map lowerKey = l.map lowerKey := by
  induction l with
  | nil => intro n; rfl
  | cons e l ih =>
    intro n
    simp only [renumber, List.map_cons, ih]
    rfl

theorem renumber_mem (l : List RawEntry) :
    ∀ (n : Nat), ∀ e ∈ renumber n l, ∃ x ∈ l, eraseRank e = eraseRank x := by
  induction l with
  | nil => intro n e he; exact absurd he (List.not_mem_nil e)
  | cons b l ih =>
    intro n e he
    rw [renumber] at he
    rcases List.mem_cons.mp he with he | he
    · exact ⟨b, List.mem_cons_self _ _, by rw [he]; rfl⟩
    · obtain ⟨x, hx, hex⟩ := ih (n + 1) e he
      exact ⟨x, List.mem_cons_of_mem _ hx, hex⟩

theorem eraseRank_lowerKey {a b : RawEntry} (h : eraseRank a = eraseRank b) :
    lowerKey a = lowerKey b := by
  have hh : a.headWord = b.headWord := congrArg (fun r => r.headWord) h
  rw [lowerKey, lowerKey, hh]

/-- Claim C1 (confirmed): the deduplicator's output (i) has pairwise-distinct
lowercased keys, none empty, and is insensitive to malformed lines; (ii)
contains a key iff some valid input entry carries that non-empty key; (iii)
each output entry agrees, in every field except the reassigned `wordRank`,
with the first-encountered valid input entry of its key (file order, then
line order); (iv) is the renumbering of the stable sort of the
first-occurrence list by original rank: sorted by `RankLe` (missing ranks
acting as plus infinity, hence last), missing-rank entries kept in their
first-seen relative order, the first-occurrence list being a subsequence of
the valid input entries; and (v) carries `wordRank` values exactly `1..N`. -/
theorem extract_unique_words_spec (files : List (List (Option RawEntry))) :
    ((extract_unique_words files).map lowerKey).Nodup
    ∧ (∀ e ∈ extract_unique_words files, lowerKey e ≠ "")
    ∧ extract_unique_words files =
        extract_unique_words [(files.flatten.filterMap id).map some]
    ∧ (∀ k : String, (∃ e ∈ extract_unique_words files, lowerKey e = k) ↔
        (k ≠ "" ∧ ∃ x ∈ files.flatten.filterMap id, lowerKey x = k))
    ∧ (∀ e ∈ extract_unique_words files, ∃ e₀,
        (files.flatten.filterMap id).find?
            (fun x => lowerKey x = lowerKey e) = some e₀
          ∧ eraseRank e = eraseRank e₀)
    ∧ extract_unique_words files =
        renumber 1 (List.insertionSort RankLe (collectUnique files))
    ∧ (List.insertionSort RankLe (collectUnique files)).Sorted RankLe
    ∧ (List.insertionSort RankLe (collectUnique files)).Pairwise
        (fun a b => a.wordRank = none → b.wordRank = none)
    ∧ (List.insertionSort RankLe (collectUnique files)).filter
          (fun e => e.wordRank.isNone) =
        (collectUnique files).filter (fun e => e.wordRank.isNone)
    ∧ (collectUnique files).Sublist (files.flatten.filterMap id)
    ∧ (extract_unique_words files).map (fun e => e.wordRank) =
        (List.range (extract_unique_words files).length).map
          (fun (i : Nat) => some ((i : Int) + 1)) := by
  have hpm : List.Perm
      ((List.insertionSort RankLe (collectUnique files)).map lowerKey)
      ((collectUnique files).map lowerKey) :=
    (List.perm_insertionSort RankLe (collectUnique files)).map lowerKey
  have hkeysmap : (extract_unique_words files).map lowerKey =
      (List.insertionSort RankLe (collectUnique files)).map lowerKey := by
    rw [extract_unique_words, renumber_map_lowerKey]
  have hmemchain : ∀ e ∈ extract_unique_words files,
      ∃ x ∈ ddAux [] files.flatten, eraseRank e = eraseRank x := by
    intro e he
    obtain ⟨x, hx, hex⟩ :=
      renumber_mem (List.insertionSort RankLe (collectUnique files)) 1 e he
    rw [List.mem_insertionSort, collectUnique_eq] at hx
    exact ⟨x, hx, hex⟩
  refine ⟨?_, ?_, ?_, ?_, ?_, rfl, ?_, ?_, ?_, ?_, ?_⟩
  · rw [hkeysmap]
    apply hpm.nodup_iff.mpr
    rw [collectUnique_eq]
    exact ddAux_keys_nodup files.flatten []
  · intro e he
    obtain ⟨x, hx, hex⟩ := hmemchain e he
    rw [eraseRank_lowerKey hex]
    exact (ddAux_mem files.flatten [] x hx).2.1
  · rw [extract_unique_words, extract_unique_words, collectUnique_eq,
      collectUnique_eq]
    rw [show ([(files.flatten.filterMap id).map some]).flatten =
      (files.flatten.filterMap id).map some by simp]
    rw [ddAux_someFilter]
  · intro k
    rw [show (∃ e ∈ extract_unique_words files, lowerKey e = k) ↔
        k ∈ (extract_unique_words files).map lowerKey from
      Iff.symm List.mem_map]
    rw [hkeysmap, hpm.mem_iff, collectUnique_eq,
      ddAux_keys_mem files.flatten [] k]
    simp only [List.not_mem_nil, not_false_iff, true_and]
  · intro e he
    obtain ⟨x, hx, hex⟩ := hmemchain e he
    have hk : lowerKey e = lowerKey x := eraseRank_lowerKey hex
    refine ⟨x, ?_, hex⟩
    simp only [hk]
    exact (ddAux_mem files.flatten [] x hx).2.2
  · exact List.sorted_insertionSort RankLe (collectUnique files)
  · apply List.Pairwise.imp ?_
      (List.sorted_insertionSort RankLe (collectUnique files))
    intro a b hab hnone
    rw [RankLe, hnone] at hab
    cases hb : b.wordRank with
    | none => rfl
    | some y =>
      rw [hb] at hab
      exact absurd hab not_false
  · apply filter_insertionSort
    intro x y hx hy
    rw [Option.isNone_iff_eq_none] at hx hy
    rw [RankLe, hx, hy]
    trivial
  · rw [collectUnique_eq]
    exact ddAux_sublist files.flatten []
  · rw [extract_unique_words, renumber_length, renumber_one_ranks]

/-- Witness for the C1 theorem at the specification's scenario: the output is
`banana` (rank 1, from the second file's first line) then `aardvark` (rank 2,
the first file's object, which came first for its key). -/
theorem extract_unique_words_spec_witness :
    (extract_unique_words demoFiles).map
        (fun e => (e.headWord, e.wordRank, e.payload)) =
      [(some "banana", some 1, 30), (some "aardvark", some 2, 10)]
    ∧ { headWord := some "aardvark", wordRank := some 2, payload := 10 } ∈
        extract_unique_words demoFiles
    ∧ lowerKey { headWord := some "aardvark", wordRank := some 2,
                 payload := 10 } ≠ ""
    ∧ (extract_unique_words demoFiles).map (fun e => e.wordRank) =
        (List.range (extract_unique_words demoFiles).length).map
          (fun (i : Nat) => some ((i : Int) + 1)) :=
  ⟨by decide, by decide,
   (extract_unique_words_spec demoFiles).2.1
     { headWord := some "aardvark", wordRank := some 2, payload := 10 }
     (by decide),
   (extract_unique_words_spec demoFiles).2.2.2.2.2.2.2.2.2.2⟩

end YoudaoDic
